import Mathlib

/-!
Verification development for the pic2list repository.

The development shallowly embeds the credential-handling core of the
repository: `src/crypto-utils.js` (AES-256-GCM encrypt/decrypt helpers),
`src/routes/ebay-oauth.js` (OAuth initiate/callback/disconnect),
`src/routes/config.js` (masked configuration read and role-aware write),
and the `loadUserConfig` middleware with its OAuth auto-refresh
(`src/unnamed/part_000` and `src/unnamed/part_001`).

Byte strings are modelled as `List Nat`.  JavaScript `null`/`undefined`
versus present values are modelled with `Option`; JavaScript string
truthiness (empty string is falsy) is modelled explicitly.

The AES-256-GCM cipher itself is library code, not part of the
repository; it is modelled as an ideal authenticated cipher: a keystream
addition stands in for AES-CTR confidentiality, and an authentication
tag that binds key, iv and ciphertext losslessly stands in for the
computationally sound integrity of GCM.  The three base64 segments of a
stored token are modelled as injective byte-to-symbol encodings whose
images avoid the `:` separator (code 58), with pairwise disjoint symbol
ranges so that cross-segment confusion fails authentication, exactly as
it does cryptographically for GCM.  Everything downstream of the cipher
(null handling, the `iv:tag:ciphertext` token format, splitting on `:`,
failing closed to null on any error) is translated directly from
`src/crypto-utils.js`.
-/

namespace Pic2List

/-- Byte strings (JavaScript strings / Buffers) as lists of naturals. -/
abbrev Bytes := List Nat

/-- The `:` separator joining the three token segments (char code 58). -/
def SEP : Nat := 58

/-- JavaScript truthiness of an optional byte string:
`undefined`/`null` and the empty string are falsy. -/
def truthyB : Option Bytes → Bool
  | some (_ :: _) => true
  | _ => false

/-- JavaScript truthiness of an optional string. -/
def truthyS : Option String → Bool
  | some s => s ≠ ""
  | none => false

/-! ### Segment text encodings (stand-in for base64)

Each of the three token segments (iv, auth tag, ciphertext body) is
rendered with an injective byte-to-symbol map `b ↦ 5*b + r` with a
distinct residue `r ∈ \x7b0, 1, 2\x7d`; no symbol equals the separator
58 (which has residue 3). -/

/-- Encode one byte into segment text, residue class `r`. -/
def encSym (r b : Nat) : Nat := 5 * b + r

/-- Strict decoding of one symbol of segment text, residue class `r`. -/
def decSym (r s : Nat) : Option Nat :=
  if s % 5 = r then some (s / 5) else none

/-- Encode a byte string into segment text. -/
def encSeg (r : Nat) (l : Bytes) : Bytes := l.map (encSym r)

/-- Strictly decode segment text back into a byte string; any symbol
outside the residue class makes the whole segment undecodable. -/
def decSeg (r : Nat) : Bytes → Option Bytes
  | [] => some []
  | s :: rest =>
    match decSym r s, decSeg r rest with
    | some b, some bs => some (b :: bs)
    | _, _ => none

/-! ### Ideal cipher core -/

/-- Keystream byte `i` derived from key and iv (stands in for AES-CTR). -/
def ksByte (key : Nat) (iv : Bytes) (i : Nat) : Nat :=
  key + iv.foldl (fun a b => a * 31 + b) 7 + i

/-- Apply the keystream from index `i` onward (encryption direction). -/
def xorKs (key : Nat) (iv : Bytes) : Nat → Bytes → Bytes
  | _, [] => []
  | i, b :: rest => (b + ksByte key iv i) :: xorKs key iv (i + 1) rest

/-- Remove the keystream from index `i` onward (decryption direction). -/
def unKs (key : Nat) (iv : Bytes) : Nat → Bytes → Bytes
  | _, [] => []
  | i, c :: rest => (c - ksByte key iv i) :: unKs key iv (i + 1) rest

/-- Ideal authentication tag: binds key, iv and ciphertext losslessly
(stands in for the GCM tag). -/
def mac (key : Nat) (iv ct : Bytes) : Bytes :=
  key :: iv.length :: ct.length :: (iv ++ ct)

/-! ### encrypt / decrypt (`src/crypto-utils.js`)

`encrypt(plaintext)` returns null for falsy input, otherwise builds
`iv : tag : ciphertext`.  The random 12-byte iv drawn inside the source
function is passed here as an explicit parameter. -/

/-- Embedding of `encrypt` from `src/crypto-utils.js` on byte strings;
`pt = []` covers both JavaScript null and the empty string (falsy). -/
def encryptTok (key : Nat) (iv pt : Bytes) : Option Bytes :=
  if pt = [] then none
  else
    let ct := xorKs key iv 0 pt
    some (encSeg 0 iv ++ SEP :: encSeg 1 (mac key iv ct) ++ SEP :: encSeg 2 ct)

/-- Split a stored token on the separator, as `stored.split(sep)` does. -/
def splitSep : Bytes → List Bytes
  | [] => [[]]
  | c :: rest =>
    let ss := splitSep rest
    if c = SEP then [] :: ss
    else
      match ss with
      | s :: tail => (c :: s) :: tail
      | [] => [[c]]

/-- Embedding of `decrypt` from `src/crypto-utils.js`: falsy input gives
null; the token is split on `:`, the first three segments are decoded
(extra segments are ignored, as JavaScript array destructuring does),
the authentication tag is checked, and every failure path returns null
(the `try/catch` fails closed). -/
def decryptTok (key : Nat) (stored : Bytes) : Option Bytes :=
  if stored = [] then none
  else
    match splitSep stored with
    | s1 :: s2 :: s3 :: _ =>
      match decSeg 0 s1, decSeg 1 s2, decSeg 2 s3 with
      | some iv, some tg, some ct =>
        if tg = mac key iv ct then some (unKs key iv 0 ct) else none
      | _, _, _ => none
    | _ => none

/-- Null-aware wrapper for `encrypt`: JavaScript null input. -/
def encryptJS (key : Nat) (iv : Bytes) : Option Bytes → Option Bytes
  | none => none
  | some pt => encryptTok key iv pt

/-- Null-aware wrapper for `decrypt`: JavaScript null input. -/
def decryptJS (key : Nat) : Option Bytes → Option Bytes
  | none => none
  | some st => decryptTok key st

/-! ### Basic cipher lemmas -/

theorem unKs_xorKs (key : Nat) (iv : Bytes) :
    ∀ (i : Nat) (pt : Bytes), unKs key iv i (xorKs key iv i pt) = pt := by
  intro i pt
  induction pt generalizing i with
  | nil => simp [xorKs, unKs]
  | cons b rest ih => simp [xorKs, unKs, ih]

theorem length_xorKs (key : Nat) (iv : Bytes) :
    ∀ (i : Nat) (pt : Bytes), (xorKs key iv i pt).length = pt.length := by
  intro i pt
  induction pt generalizing i with
  | nil => simp [xorKs]
  | cons b rest ih => simp [xorKs, ih]

theorem decSym_encSym {r : Nat} (hr : r < 5) (b : Nat) :
    decSym r (encSym r b) = some b := by
  simp only [decSym, encSym]
  have h1 : (5 * b + r) % 5 = r := by omega
  have h2 : (5 * b + r) / 5 = b := by omega
  simp [h1, h2]

theorem decSeg_encSeg {r : Nat} (hr : r < 5) (l : Bytes) :
    decSeg r (encSeg r l) = some l := by
  induction l with
  | nil => simp [encSeg, decSeg]
  | cons b rest ih =>
    simp only [encSeg, List.map_cons, decSeg] at *
    rw [decSym_encSym hr, ih]

theorem encSym_ne_SEP {r : Nat} (hr : r < 3) (b : Nat) : encSym r b ≠ SEP := by
  simp only [encSym, SEP]
  omega

theorem mem_encSeg_ne_SEP {r : Nat} (hr : r < 3) {l : Bytes} {x : Nat}
    (hx : x ∈ encSeg r l) : x ≠ SEP := by
  simp only [encSeg, List.mem_map] at hx
  obtain ⟨b, _, rfl⟩ := hx
  exact encSym_ne_SEP hr b

theorem decSeg_some_inv {r : Nat} :
    ∀ {s b : Bytes}, decSeg r s = some b → s = encSeg r b := by
  intro s
  induction s with
  | nil =>
    intro b h
    simp only [decSeg, Option.some.injEq] at h
    simp [← h, encSeg]
  | cons a rest ih =>
    intro b h
    simp only [decSeg] at h
    cases hda : decSym r a with
    | none => rw [hda] at h; simp at h
    | some x =>
      rw [hda] at h
      cases hdr : decSeg r rest with
      | none => rw [hdr] at h; simp at h
      | some xs =>
        rw [hdr] at h
        simp only [Option.some.injEq] at h
        subst h
        have hx : a = encSym r x := by
          simp only [decSym] at hda
          by_cases hm : a % 5 = r
          · rw [if_pos hm] at hda
            simp only [Option.some.injEq] at hda
            simp only [encSym]
            omega
          · rw [if_neg hm] at hda; simp at hda
        rw [hx, ih hdr]
        simp [encSeg]

theorem decSeg_cross_none {r q a : Nat} (hr : r < 5) (hne : r ≠ q)
    (rest : Bytes) :
    decSeg q (encSym r a :: rest) = none := by
  have hm : (5 * a + r) % 5 = r := by omega
  simp only [decSeg, decSym, encSym, hm, if_neg hne]

theorem mac_inj {key : Nat} {iv ct iv2 ct2 : Bytes}
    (h : mac key iv ct = mac key iv2 ct2) : iv = iv2 ∧ ct = ct2 := by
  simp only [mac, List.cons.injEq] at h
  exact List.append_inj h.2.2.2 h.2.1

/-! ### Splitting lemmas -/

theorem splitSep_no_sep {a : Bytes} (ha : ∀ x ∈ a, x ≠ SEP) :
    splitSep a = [a] := by
  induction a with
  | nil => rfl
  | cons c rest ih =>
    have hc : c ≠ SEP := ha c (List.mem_cons_self c rest)
    have hr : ∀ x ∈ rest, x ≠ SEP := fun x hx => ha x (List.mem_cons_of_mem c hx)
    simp only [splitSep, if_neg hc, ih hr]

theorem splitSep_append_sep {a : Bytes} (b : Bytes) (ha : ∀ x ∈ a, x ≠ SEP) :
    splitSep (a ++ SEP :: b) = a :: splitSep b := by
  induction a with
  | nil => simp [splitSep]
  | cons c rest ih =>
    have hc : c ≠ SEP := ha c (List.mem_cons_self c rest)
    have hr : ∀ x ∈ rest, x ≠ SEP := fun x hx => ha x (List.mem_cons_of_mem c hx)
    simp only [List.cons_append, splitSep, if_neg hc]
    rw [List.append_eq, ih hr]

/-- Splitting an honestly formatted three-segment token. -/
theorem splitSep_token {A B C : Bytes} (hA : ∀ x ∈ A, x ≠ SEP)
    (hB : ∀ x ∈ B, x ≠ SEP) (hC : ∀ x ∈ C, x ≠ SEP) :
    splitSep (A ++ SEP :: B ++ SEP :: C) = [A, B, C] := by
  have h1 : A ++ SEP :: B ++ SEP :: C = A ++ SEP :: (B ++ SEP :: C) := by
    simp
  rw [h1, splitSep_append_sep _ hA, splitSep_append_sep _ hB, splitSep_no_sep hC]

/-! ### Claim C4: round trip and null handling -/

/-- Encryption followed by decryption restores any non-empty plaintext
(shared auxiliary result). -/
theorem encrypt_then_decrypt (key : Nat) (iv pt : Bytes) (hpt : pt ≠ []) :
    ∃ tok, encryptTok key iv pt = some tok ∧ decryptTok key tok = some pt := by
  set ct := xorKs key iv 0 pt with hct
  set tg := mac key iv ct with htg
  refine ⟨encSeg 0 iv ++ SEP :: encSeg 1 tg ++ SEP :: encSeg 2 ct, ?_, ?_⟩
  · simp [encryptTok, hpt]
  · have hne : encSeg 0 iv ++ SEP :: encSeg 1 tg ++ SEP :: encSeg 2 ct ≠ [] := by
      intro h
      have := congrArg List.length h
      simp at this
    rw [decryptTok, if_neg hne,
      splitSep_token
        (fun x hx => mem_encSeg_ne_SEP (show (0 : Nat) < 3 by omega) hx)
        (fun x hx => mem_encSeg_ne_SEP (show (1 : Nat) < 3 by omega) hx)
        (fun x hx => mem_encSeg_ne_SEP (show (2 : Nat) < 3 by omega) hx)]
    simp only [decSeg_encSeg (show (0 : Nat) < 5 by omega),
      decSeg_encSeg (show (1 : Nat) < 5 by omega),
      decSeg_encSeg (show (2 : Nat) < 5 by omega)]
    rw [if_pos trivial, hct, unKs_xorKs]

/-- C4.  For every non-empty plaintext `s`, `decrypt(encrypt(s)) == s`;
`encrypt` of null or the empty string returns null; `decrypt(null)`
returns null. -/
theorem crypto_roundtrip (key : Nat) (iv pt : Bytes) (hpt : pt ≠ []) :
    (∃ tok, encryptTok key iv pt = some tok ∧ decryptTok key tok = some pt) ∧
    encryptJS key iv none = none ∧
    encryptTok key iv [] = none ∧
    decryptJS key none = none :=
  ⟨encrypt_then_decrypt key iv pt hpt, rfl, by simp [encryptTok], rfl⟩

/-- C4 witness at a concrete input. -/
theorem crypto_roundtrip_witness :
    (∃ tok, encryptTok 9 [1, 2] [5, 6, 7] = some tok ∧
      decryptTok 9 tok = some [5, 6, 7]) ∧
    encryptJS 9 [1, 2] none = none ∧
    encryptTok 9 [1, 2] [] = none ∧
    decryptJS 9 none = none :=
  crypto_roundtrip 9 [1, 2] [5, 6, 7] (by decide)

/-! ### Infrastructure for claim C5 (tamper detection) -/

theorem encSym_inj {r a b : Nat} (h : encSym r a = encSym r b) : a = b := by
  simp only [encSym] at h
  omega

theorem encSeg_inj {r : Nat} {a b : Bytes} (h : encSeg r a = encSeg r b) :
    a = b := by
  simpa [encSeg] using List.map_injective_iff.mpr (fun x y => encSym_inj) h

theorem noSep_encSeg {r : Nat} (hr : r < 3) (l : Bytes) :
    ∀ x ∈ encSeg r l, x ≠ SEP :=
  fun _ hx => mem_encSeg_ne_SEP hr hx

theorem noSep_take {l : Bytes} (h : ∀ x ∈ l, x ≠ SEP) (n : Nat) :
    ∀ x ∈ l.take n, x ≠ SEP :=
  fun x hx => h x (List.mem_of_mem_take hx)

theorem noSep_drop {l : Bytes} (h : ∀ x ∈ l, x ≠ SEP) (n : Nat) :
    ∀ x ∈ l.drop n, x ≠ SEP :=
  fun x hx => h x (List.mem_of_mem_drop hx)

theorem noSep_set {l : Bytes} (h : ∀ x ∈ l, x ≠ SEP) {v : Nat} (hv : v ≠ SEP)
    (n : Nat) : ∀ x ∈ l.set n v, x ≠ SEP := by
  intro x hx
  rcases List.mem_or_eq_of_mem_set hx with hm | rfl
  · exact h x hm
  · exact hv

theorem noSep_append {a b : Bytes} (ha : ∀ x ∈ a, x ≠ SEP)
    (hb : ∀ x ∈ b, x ≠ SEP) : ∀ x ∈ a ++ b, x ≠ SEP := by
  intro x hx
  rcases List.mem_append.mp hx with h | h
  · exact ha x h
  · exact hb x h

theorem noSep_cons {a : Bytes} {c : Nat} (hc : c ≠ SEP)
    (ha : ∀ x ∈ a, x ≠ SEP) : ∀ x ∈ c :: a, x ≠ SEP := by
  intro x hx
  rcases List.mem_cons.mp hx with rfl | h
  · exact hc
  · exact ha x h

/-- Evaluate `decrypt` once the split of the stored token is known. -/
theorem decryptTok_eval {key : Nat} {stored s1 s2 s3 : Bytes}
    {rest : List Bytes} (hsp : splitSep stored = s1 :: s2 :: s3 :: rest)
    (hne : stored ≠ []) :
    decryptTok key stored =
      match decSeg 0 s1, decSeg 1 s2, decSeg 2 s3 with
      | some iv, some tg, some ct =>
        if tg = mac key iv ct then some (unKs key iv 0 ct) else none
      | _, _, _ => none := by
  rw [decryptTok, if_neg hne, hsp]

/-- Fewer than three segments means `decrypt` fails closed. -/
theorem decryptTok_two {key : Nat} {stored s1 s2 : Bytes}
    (hsp : splitSep stored = [s1, s2]) (hne : stored ≠ []) :
    decryptTok key stored = none := by
  rw [decryptTok, if_neg hne, hsp]

theorem decrypt_none_s1 {key : Nat} {stored s1 s2 s3 : Bytes}
    {rest : List Bytes} (hsp : splitSep stored = s1 :: s2 :: s3 :: rest)
    (hne : stored ≠ []) (h1 : decSeg 0 s1 = none) :
    decryptTok key stored = none := by
  rw [decryptTok_eval hsp hne]
  cases h2 : decSeg 1 s2 <;> cases h3 : decSeg 2 s3 <;> simp [h1, h2, h3]

theorem decrypt_none_s2 {key : Nat} {stored s1 s2 s3 : Bytes}
    {rest : List Bytes} (hsp : splitSep stored = s1 :: s2 :: s3 :: rest)
    (hne : stored ≠ []) (h2 : decSeg 1 s2 = none) :
    decryptTok key stored = none := by
  rw [decryptTok_eval hsp hne]
  cases h1 : decSeg 0 s1 <;> cases h3 : decSeg 2 s3 <;> simp [h1, h2, h3]

theorem decrypt_none_s3 {key : Nat} {stored s1 s2 s3 : Bytes}
    {rest : List Bytes} (hsp : splitSep stored = s1 :: s2 :: s3 :: rest)
    (hne : stored ≠ []) (h3 : decSeg 2 s3 = none) :
    decryptTok key stored = none := by
  rw [decryptTok_eval hsp hne]
  cases h1 : decSeg 0 s1 <;> cases h2 : decSeg 1 s2 <;> simp [h1, h2, h3]

theorem decrypt_none_tag {key : Nat} {stored s1 s2 s3 iv2 tg2 ct2 : Bytes}
    {rest : List Bytes} (hsp : splitSep stored = s1 :: s2 :: s3 :: rest)
    (hne : stored ≠ []) (h1 : decSeg 0 s1 = some iv2)
    (h2 : decSeg 1 s2 = some tg2) (h3 : decSeg 2 s3 = some ct2)
    (htag : tg2 ≠ mac key iv2 ct2) :
    decryptTok key stored = none := by
  rw [decryptTok_eval hsp hne]
  simp [h1, h2, h3, htag]

/-- Splitting an append against a pointed decomposition: the
distinguished element lands either inside the left part or inside the
right part. -/
theorem append_cons_cases {L R pre suf : Bytes} {x : Nat}
    (h : L ++ R = pre ++ x :: suf) :
    (∃ p1 s1, L = p1 ++ x :: s1 ∧ pre = p1 ∧ suf = s1 ++ R) ∨
    (∃ p2, pre = L ++ p2 ∧ R = p2 ++ x :: suf) := by
  induction L generalizing pre with
  | nil =>
    right
    exact ⟨pre, rfl, by simpa using h⟩
  | cons a L2 ih =>
    cases pre with
    | nil =>
      left
      simp only [List.cons_append, List.nil_append, List.cons.injEq] at h
      exact ⟨[], L2, by simp [h.1], rfl, h.2.symm⟩
    | cons b pre2 =>
      simp only [List.cons_append, List.cons.injEq] at h
      obtain ⟨rfl, hrest⟩ := h
      rcases ih hrest with ⟨p1, s1, hL, hp, hs⟩ | ⟨p2, hp, hR⟩
      · exact Or.inl ⟨a :: p1, s1, by simp [hL], by simp [hp], hs⟩
      · exact Or.inr ⟨p2, by simp [hp], hR⟩

/-- A pointed decomposition of an encoded segment comes from a pointed
decomposition of the underlying bytes. -/
theorem encSeg_decomp {r : Nat} :
    ∀ {l pre suf : Bytes} {x : Nat}, encSeg r l = pre ++ x :: suf →
      ∃ lp b ls, l = lp ++ b :: ls ∧ pre = encSeg r lp ∧ x = encSym r b ∧
        suf = encSeg r ls := by
  intro l
  induction l with
  | nil =>
    intro pre suf x h
    simp [encSeg] at h
  | cons a l2 ih =>
    intro pre suf x h
    simp only [encSeg, List.map_cons] at h
    cases pre with
    | nil =>
      simp only [List.nil_append, List.cons.injEq] at h
      exact ⟨[], a, l2, by simp, by simp [encSeg], h.1.symm, by
        simp [encSeg, ← h.2]⟩
    | cons p pre2 =>
      simp only [List.cons_append, List.cons.injEq] at h
      obtain ⟨hpa, hrest⟩ := h
      obtain ⟨lp, b, ls, hl, hp, hx, hs⟩ := ih hrest
      exact ⟨a :: lp, b, ls, by simp [hl], by simp [encSeg, hp, ← hpa], hx, hs⟩

/-- Tags of genuinely different (iv, ciphertext) pairs differ. -/
theorem mac_ne {key : Nat} {iv ct iv2 ct2 : Bytes}
    (h : iv ≠ iv2 ∨ ct ≠ ct2) : mac key iv ct ≠ mac key iv2 ct2 := by
  intro he
  obtain ⟨h1, h2⟩ := mac_inj he
  rcases h with h | h
  · exact h h1
  · exact h h2

/-- A tag with its last byte cut off never authenticates an empty
ciphertext. -/
theorem tag_front_ne_mac_nil {key : Nat} {iv ct tgp : Bytes} {b0 : Nat}
    (hct : ct ≠ []) (h : mac key iv ct = tgp ++ [b0]) :
    tgp ≠ mac key iv [] := by
  intro hg
  subst hg
  simp only [mac, List.append_nil, List.cons_append, List.cons.injEq] at h
  have hz : ct.length = 0 := by simpa using h.2.2.1
  exact hct (List.length_eq_zero.mp hz)

/-- The tag segment never decodes as a ciphertext segment. -/
theorem decSeg2_tagSeg_none (key : Nat) (iv ct : Bytes) :
    decSeg 2 (encSeg 1 (mac key iv ct)) = none := by
  simp only [mac, encSeg, List.map_cons]
  exact decSeg_cross_none (by omega) (by omega) _

/-! ### Zone lemmas: decrypting a token corrupted at one position -/

/-- Corruption inside the iv segment of an honest token fails. -/
theorem flip_zoneA {key v b0 : Nat} {iv ivp ivs ct : Bytes}
    (hiv : iv = ivp ++ b0 :: ivs) (hv : encSym 0 b0 ≠ v) :
    decryptTok key (encSeg 0 ivp ++ v :: (encSeg 0 ivs ++ SEP ::
      (encSeg 1 (mac key iv ct) ++ SEP :: encSeg 2 ct))) = none := by
  by_cases hvS : v = SEP
  · subst hvS
    have hsp : splitSep (encSeg 0 ivp ++ SEP :: (encSeg 0 ivs ++ SEP ::
        (encSeg 1 (mac key iv ct) ++ SEP :: encSeg 2 ct))) =
        encSeg 0 ivp :: encSeg 0 ivs :: encSeg 1 (mac key iv ct) ::
          [encSeg 2 ct] := by
      rw [splitSep_append_sep _ (noSep_encSeg (by omega) _),
        splitSep_append_sep _ (noSep_encSeg (by omega) _),
        splitSep_append_sep _ (noSep_encSeg (by omega) _),
        splitSep_no_sep (noSep_encSeg (by omega) _)]
    exact decrypt_none_s3 hsp (by simp) (decSeg2_tagSeg_none key iv ct)
  · have heq : encSeg 0 ivp ++ v :: (encSeg 0 ivs ++ SEP ::
        (encSeg 1 (mac key iv ct) ++ SEP :: encSeg 2 ct)) =
        (encSeg 0 ivp ++ v :: encSeg 0 ivs) ++ SEP ::
          (encSeg 1 (mac key iv ct) ++ SEP :: encSeg 2 ct) := by
      simp
    rw [heq]
    have hsp : splitSep ((encSeg 0 ivp ++ v :: encSeg 0 ivs) ++ SEP ::
        (encSeg 1 (mac key iv ct) ++ SEP :: encSeg 2 ct)) =
        (encSeg 0 ivp ++ v :: encSeg 0 ivs) :: encSeg 1 (mac key iv ct) ::
          [encSeg 2 ct] := by
      rw [splitSep_append_sep _ (noSep_append (noSep_encSeg (by omega) _)
          (noSep_cons hvS (noSep_encSeg (by omega) _))),
        splitSep_append_sep _ (noSep_encSeg (by omega) _),
        splitSep_no_sep (noSep_encSeg (by omega) _)]
    have hne : (encSeg 0 ivp ++ v :: encSeg 0 ivs) ++ SEP ::
        (encSeg 1 (mac key iv ct) ++ SEP :: encSeg 2 ct) ≠ [] := by simp
    cases hd1 : decSeg 0 (encSeg 0 ivp ++ v :: encSeg 0 ivs) with
    | none => exact decrypt_none_s1 hsp hne hd1
    | some iv2 =>
      obtain ⟨lp, b, ls, hl, hp, hx, hs⟩ := encSeg_decomp (decSeg_some_inv hd1).symm
      have hlp : lp = ivp := encSeg_inj hp.symm
      have hls : ls = ivs := encSeg_inj hs.symm
      have hbb : b ≠ b0 := by
        intro hb
        exact hv (by rw [← hb, ← hx])
      have hivne : iv ≠ iv2 := by
        rw [hiv, hl, hlp, hls]
        intro hcontra
        have h2 : b0 :: ivs = b :: ivs := List.append_cancel_left hcontra
        injection h2 with h3 h4
        exact hbb h3.symm
      exact decrypt_none_tag hsp hne hd1
        (decSeg_encSeg (by omega) _) (decSeg_encSeg (by omega) _)
        (mac_ne (Or.inl hivne))

/-- Corruption of the first separator of an honest token fails. -/
theorem flip_sep1 {key v : Nat} {A B C : Bytes} (hA : ∀ x ∈ A, x ≠ SEP)
    (hB : ∀ x ∈ B, x ≠ SEP) (hC : ∀ x ∈ C, x ≠ SEP) (hv : v ≠ SEP) :
    decryptTok key (A ++ v :: (B ++ SEP :: C)) = none := by
  have heq : A ++ v :: (B ++ SEP :: C) = (A ++ v :: B) ++ SEP :: C := by simp
  rw [heq]
  have hsp : splitSep ((A ++ v :: B) ++ SEP :: C) = [A ++ v :: B, C] := by
    rw [splitSep_append_sep _ (noSep_append hA (noSep_cons hv hB)),
      splitSep_no_sep hC]
  exact decryptTok_two hsp (by simp)

/-- Corruption inside the tag segment of an honest token fails. -/
theorem flip_zoneB {key v b0 : Nat} {iv tgp tgs ct : Bytes}
    (htg : mac key iv ct = tgp ++ b0 :: tgs) (hct : ct ≠ [])
    (hv : encSym 1 b0 ≠ v) :
    decryptTok key (encSeg 0 iv ++ SEP :: (encSeg 1 tgp ++ v ::
      (encSeg 1 tgs ++ SEP :: encSeg 2 ct))) = none := by
  by_cases hvS : v = SEP
  · subst hvS
    have hsp : splitSep (encSeg 0 iv ++ SEP :: (encSeg 1 tgp ++ SEP ::
        (encSeg 1 tgs ++ SEP :: encSeg 2 ct))) =
        encSeg 0 iv :: encSeg 1 tgp :: encSeg 1 tgs :: [encSeg 2 ct] := by
      rw [splitSep_append_sep _ (noSep_encSeg (by omega) _),
        splitSep_append_sep _ (noSep_encSeg (by omega) _),
        splitSep_append_sep _ (noSep_encSeg (by omega) _),
        splitSep_no_sep (noSep_encSeg (by omega) _)]
    cases tgs with
    | cons c rest =>
      refine decrypt_none_s3 hsp (by simp) ?_
      simp only [encSeg, List.map_cons]
      exact decSeg_cross_none (by omega) (by omega) _
    | nil =>
      refine decrypt_none_tag hsp (by simp) (decSeg_encSeg (by omega) _)
        (decSeg_encSeg (by omega) _)
        (show decSeg 2 (encSeg 1 ([] : Bytes)) = some [] from by
          simp [encSeg, decSeg]) ?_
      exact tag_front_ne_mac_nil hct htg
  · have heq : encSeg 0 iv ++ SEP :: (encSeg 1 tgp ++ v ::
        (encSeg 1 tgs ++ SEP :: encSeg 2 ct)) =
        encSeg 0 iv ++ SEP :: ((encSeg 1 tgp ++ v :: encSeg 1 tgs) ++ SEP ::
          encSeg 2 ct) := by
      simp
    rw [heq]
    have hsp : splitSep (encSeg 0 iv ++ SEP :: ((encSeg 1 tgp ++ v ::
        encSeg 1 tgs) ++ SEP :: encSeg 2 ct)) =
        encSeg 0 iv :: (encSeg 1 tgp ++ v :: encSeg 1 tgs) ::
          [encSeg 2 ct] := by
      rw [splitSep_append_sep _ (noSep_encSeg (by omega) _),
        splitSep_append_sep _ (noSep_append (noSep_encSeg (by omega) _)
          (noSep_cons hvS (noSep_encSeg (by omega) _))),
        splitSep_no_sep (noSep_encSeg (by omega) _)]
    have hne : encSeg 0 iv ++ SEP :: ((encSeg 1 tgp ++ v :: encSeg 1 tgs) ++
        SEP :: encSeg 2 ct) ≠ [] := by simp
    cases hd2 : decSeg 1 (encSeg 1 tgp ++ v :: encSeg 1 tgs) with
    | none => exact decrypt_none_s2 hsp hne hd2
    | some tg2 =>
      obtain ⟨lp, b, ls, hl, hp, hx, hs⟩ := encSeg_decomp (decSeg_some_inv hd2).symm
      have hlp : lp = tgp := encSeg_inj hp.symm
      have hls : ls = tgs := encSeg_inj hs.symm
      have hbb : b ≠ b0 := by
        intro hb
        exact hv (by rw [← hb, ← hx])
      have htgne : tg2 ≠ mac key iv ct := by
        rw [htg, hl, hlp, hls]
        intro hcontra
        have h2 : b :: tgs = b0 :: tgs := List.append_cancel_left hcontra
        injection h2 with h3 h4
        exact hbb h3
      exact decrypt_none_tag hsp hne (decSeg_encSeg (by omega) _) hd2
        (decSeg_encSeg (by omega) _) htgne

/-- Corruption of the second separator of an honest token fails. -/
theorem flip_sep2 {key v : Nat} {A B C : Bytes} (hA : ∀ x ∈ A, x ≠ SEP)
    (hB : ∀ x ∈ B, x ≠ SEP) (hC : ∀ x ∈ C, x ≠ SEP) (hv : v ≠ SEP) :
    decryptTok key (A ++ SEP :: (B ++ v :: C)) = none := by
  have hsp : splitSep (A ++ SEP :: (B ++ v :: C)) = [A, B ++ v :: C] := by
    rw [splitSep_append_sep _ hA,
      splitSep_no_sep (noSep_append hB (noSep_cons hv hC))]
  exact decryptTok_two hsp (by simp)

/-- Corruption inside the ciphertext segment of an honest token fails. -/
theorem flip_zoneC {key v b0 : Nat} {iv ctp cts : Bytes}
    (hv : encSym 2 b0 ≠ v) :
    decryptTok key (encSeg 0 iv ++ SEP ::
      (encSeg 1 (mac key iv (ctp ++ b0 :: cts)) ++ SEP ::
        (encSeg 2 ctp ++ v :: encSeg 2 cts))) = none := by
  have hctne : ctp ++ b0 :: cts ≠ ctp := by
    intro h
    have := congrArg List.length h
    simp at this
  by_cases hvS : v = SEP
  · subst hvS
    have hsp : splitSep (encSeg 0 iv ++ SEP ::
        (encSeg 1 (mac key iv (ctp ++ b0 :: cts)) ++ SEP ::
          (encSeg 2 ctp ++ SEP :: encSeg 2 cts))) =
        encSeg 0 iv :: encSeg 1 (mac key iv (ctp ++ b0 :: cts)) ::
          encSeg 2 ctp :: [encSeg 2 cts] := by
      rw [splitSep_append_sep _ (noSep_encSeg (by omega) _),
        splitSep_append_sep _ (noSep_encSeg (by omega) _),
        splitSep_append_sep _ (noSep_encSeg (by omega) _),
        splitSep_no_sep (noSep_encSeg (by omega) _)]
    exact decrypt_none_tag hsp (by simp) (decSeg_encSeg (by omega) _)
      (decSeg_encSeg (by omega) _) (decSeg_encSeg (by omega) _)
      (mac_ne (Or.inr hctne))
  · have heq : encSeg 0 iv ++ SEP ::
        (encSeg 1 (mac key iv (ctp ++ b0 :: cts)) ++ SEP ::
          (encSeg 2 ctp ++ v :: encSeg 2 cts)) =
        encSeg 0 iv ++ SEP ::
          (encSeg 1 (mac key iv (ctp ++ b0 :: cts)) ++ SEP ::
            (encSeg 2 ctp ++ v :: encSeg 2 cts)) := rfl
    have hsp : splitSep (encSeg 0 iv ++ SEP ::
        (encSeg 1 (mac key iv (ctp ++ b0 :: cts)) ++ SEP ::
          (encSeg 2 ctp ++ v :: encSeg 2 cts))) =
        encSeg 0 iv :: encSeg 1 (mac key iv (ctp ++ b0 :: cts)) ::
          [encSeg 2 ctp ++ v :: encSeg 2 cts] := by
      rw [splitSep_append_sep _ (noSep_encSeg (by omega) _),
        splitSep_append_sep _ (noSep_encSeg (by omega) _),
        splitSep_no_sep (noSep_append (noSep_encSeg (by omega) _)
          (noSep_cons hvS (noSep_encSeg (by omega) _)))]
    have hne : encSeg 0 iv ++ SEP ::
        (encSeg 1 (mac key iv (ctp ++ b0 :: cts)) ++ SEP ::
          (encSeg 2 ctp ++ v :: encSeg 2 cts)) ≠ [] := by simp
    cases hd3 : decSeg 2 (encSeg 2 ctp ++ v :: encSeg 2 cts) with
    | none => exact decrypt_none_s3 hsp hne hd3
    | some ct2 =>
      obtain ⟨lp, b, ls, hl, hp, hx, hs⟩ := encSeg_decomp (decSeg_some_inv hd3).symm
      have hlp : lp = ctp := encSeg_inj hp.symm
      have hls : ls = cts := encSeg_inj hs.symm
      have hbb : b ≠ b0 := by
        intro hb
        exact hv (by rw [← hb, ← hx])
      have hctne2 : ctp ++ b0 :: cts ≠ ct2 := by
        rw [hl, hlp, hls]
        intro hcontra
        have h2 : b0 :: cts = b :: cts := List.append_cancel_left hcontra
        injection h2 with h3 h4
        exact hbb h3.symm
      exact decrypt_none_tag hsp hne (decSeg_encSeg (by omega) _)
        (decSeg_encSeg (by omega) _) hd3 (mac_ne (Or.inr hctne2))

/-! ### Claim C5: tamper detection -/

/-- C5.  Single-byte modification of a stored token fails closed: write
the honest token produced by `encrypt` as `pre ++ x :: suf` and replace
the byte `x` at that position by any different byte `v`; then `decrypt`
of the modified token returns null — never a wrong plaintext (and
`decryptTok` is a total function, so no exception reaches the caller;
malformed input likewise lands in a `none` branch). -/
theorem decrypt_flip (key : Nat) (iv pt tok pre suf : Bytes) (x v : Nat)
    (henc : encryptTok key iv pt = some tok)
    (hdec : tok = pre ++ x :: suf) (hxv : x ≠ v) :
    decryptTok key (pre ++ v :: suf) = none := by
  by_cases hpt : pt = []
  · rw [encryptTok, if_pos hpt] at henc
    cases henc
  · simp only [encryptTok, if_neg hpt, Option.some.injEq] at henc
    have hctne : xorKs key iv 0 pt ≠ [] := by
      intro h
      have hlen := congrArg List.length h
      rw [length_xorKs] at hlen
      exact hpt (List.length_eq_zero.mp (by simpa using hlen))
    have htok : encSeg 0 iv ++ SEP ::
        (encSeg 1 (mac key iv (xorKs key iv 0 pt)) ++ SEP ::
          encSeg 2 (xorKs key iv 0 pt)) = pre ++ x :: suf := by
      rw [← hdec, ← henc]
      simp
    rcases append_cons_cases htok with ⟨p1, s1, hA, rfl, rfl⟩ | ⟨p2, rfl, hR⟩
    · -- the modified byte lies in the iv segment
      obtain ⟨ivp, b0, ivs, hiv, hp1, hx, hs1⟩ := encSeg_decomp hA
      rw [hp1, hs1]
      exact flip_zoneA hiv (by rw [← hx]; exact hxv)
    · cases p2 with
      | nil =>
        -- the modified byte is the first separator
        simp only [List.nil_append] at hR
        injection hR with h1 h2
        rw [← h2]
        have hgoal : (encSeg 0 iv ++ ([] : Bytes)) ++ v ::
            (encSeg 1 (mac key iv (xorKs key iv 0 pt)) ++ SEP ::
              encSeg 2 (xorKs key iv 0 pt)) =
            encSeg 0 iv ++ v ::
              (encSeg 1 (mac key iv (xorKs key iv 0 pt)) ++ SEP ::
                encSeg 2 (xorKs key iv 0 pt)) := by simp
        rw [hgoal]
        exact flip_sep1 (noSep_encSeg (by omega) _) (noSep_encSeg (by omega) _)
          (noSep_encSeg (by omega) _) (Ne.symm (h1 ▸ hxv))
      | cons c p3 =>
        simp only [List.cons_append] at hR
        injection hR with hc hR2
        rcases append_cons_cases hR2 with ⟨q1, t1, hB, rfl, rfl⟩ |
          ⟨q2, rfl, hR3⟩
        · -- the modified byte lies in the tag segment
          obtain ⟨tgp, b0, tgs, htg2, hq1, hx, ht1⟩ := encSeg_decomp hB
          have heq : (encSeg 0 iv ++ c :: p3) ++ v ::
              (t1 ++ SEP :: encSeg 2 (xorKs key iv 0 pt)) =
              encSeg 0 iv ++ c :: (p3 ++ v ::
                (t1 ++ SEP :: encSeg 2 (xorKs key iv 0 pt))) := by simp
          rw [heq, ← hc, hq1, ht1]
          exact flip_zoneB htg2 hctne (by rw [← hx]; exact hxv)
        · cases q2 with
          | nil =>
            -- the modified byte is the second separator
            simp only [List.nil_append] at hR3
            injection hR3 with h1 h2
            rw [← h2]
            have hgoal : (encSeg 0 iv ++ c ::
                (encSeg 1 (mac key iv (xorKs key iv 0 pt)) ++ ([] : Bytes)))
                ++ v :: encSeg 2 (xorKs key iv 0 pt) =
                encSeg 0 iv ++ c ::
                  (encSeg 1 (mac key iv (xorKs key iv 0 pt)) ++ v ::
                    encSeg 2 (xorKs key iv 0 pt)) := by simp
            rw [hgoal, ← hc]
            exact flip_sep2 (noSep_encSeg (by omega) _)
              (noSep_encSeg (by omega) _) (noSep_encSeg (by omega) _)
              (Ne.symm (h1 ▸ hxv))
          | cons d q3 =>
            -- the modified byte lies in the ciphertext segment
            simp only [List.cons_append] at hR3
            injection hR3 with hd hC2
            obtain ⟨ctp, b0, cts, hct2, hq3, hx, hsuf⟩ := encSeg_decomp hC2
            have heq : (encSeg 0 iv ++ c ::
                (encSeg 1 (mac key iv (xorKs key iv 0 pt)) ++ d :: q3))
                ++ v :: suf =
                encSeg 0 iv ++ c ::
                  (encSeg 1 (mac key iv (xorKs key iv 0 pt)) ++ d ::
                    (q3 ++ v :: suf)) := by simp
            rw [heq, ← hc, ← hd, hq3, hsuf, hct2]
            exact flip_zoneC (by rw [← hx]; exact hxv)

/-- C5 witness: a concrete honest token with its first byte flipped. -/
theorem decrypt_flip_witness :
    decryptTok 1 ([] ++ 7 :: [58, 6, 6, 6, 6, 1106, 58, 1107]) = none :=
  decrypt_flip 1 [1] [2] [5, 58, 6, 6, 6, 6, 1106, 58, 1107] []
    [58, 6, 6, 6, 6, 1106, 58, 1107] 5 7 (by decide) (by decide) (by decide)

/-! ### Data model: the owner row of the `users` table

`src/setup-db.js` declares the credential columns used below; encrypted
columns hold `encrypt` output (or null), `ebay_oauth_token_expiry` is a
timestamp in milliseconds (modelled as `Int`). -/

structure OwnerRecord where
  ebay_token : Option Bytes
  ebay_client_id : Option Bytes
  ebay_client_secret : Option Bytes
  ebay_oauth_access_token : Option Bytes
  ebay_oauth_refresh_token : Option Bytes
  ebay_oauth_token_expiry : Option Int
  ebay_oauth_username : Option String
  example_template : Option String
  deriving DecidableEq

/-- The refresh-early window, `EXPIRY_BUFFER_MS = 5 * 60 * 1000` from
`loadUserConfig` in `src/unnamed/part_001`. -/
def EXPIRY_BUFFER_MS : Int := 5 * 60 * 1000

/-! ### OAuth callback persist, disconnect, refresh persist
(`src/routes/ebay-oauth.js`, `src/unnamed/part_001`) -/

/-- Embedding of the token-persist step of `GET /api/ebay/oauth/callback`
(`src/routes/ebay-oauth.js` lines 93–129): derives
`refreshToken = tokenData.refresh_token || null`,
`expiresIn = tokenData.expires_in || 7200`,
`tokenExpiry = now + expiresIn * 1000`, and runs the single UPDATE that
stores `encrypt(accessToken)`, `refreshToken ? encrypt(refreshToken) :
null`, the expiry and the username onto the owner record.  The random
ivs of the two `encrypt` calls are explicit parameters. -/
def callbackPersist (key : Nat) (ivA ivR : Bytes) (now : Int)
    (owner : OwnerRecord) (accessToken : Bytes)
    (refreshTokenResp : Option Bytes) (expiresInResp : Option Nat)
    (ebayUsername : Option String) : OwnerRecord :=
  let refreshToken : Option Bytes :=
    match refreshTokenResp with
    | some rt => if rt = [] then none else some rt
    | none => none
  let expiresIn : Nat :=
    match expiresInResp with
    | some e => if e = 0 then 7200 else e
    | none => 7200
  let tokenExpiry : Int := now + (expiresIn : Int) * 1000
  { owner with
    ebay_oauth_access_token := encryptTok key ivA accessToken,
    ebay_oauth_refresh_token :=
      match refreshToken with
      | some rt => encryptTok key ivR rt
      | none => none,
    ebay_oauth_token_expiry := some tokenExpiry,
    ebay_oauth_username := ebayUsername }

/-- Embedding of `POST /api/ebay/oauth/disconnect`
(`src/routes/ebay-oauth.js` lines 142–151): nulls the four OAuth
columns on the owner record. -/
def disconnectUpdate (owner : OwnerRecord) : OwnerRecord :=
  { owner with
    ebay_oauth_access_token := none,
    ebay_oauth_refresh_token := none,
    ebay_oauth_token_expiry := none,
    ebay_oauth_username := none }

/-- Embedding of the UPDATE statements of `refreshEbayOAuthToken`
(`src/unnamed/part_001` lines 175–187): both branches store the new
encrypted access token and expiry; the refresh-token column is written
only when the response carried a (truthy) new refresh token. -/
def refreshPersist (key : Nat) (ivA ivR : Bytes) (now : Int)
    (owner : OwnerRecord) (newAccess : Bytes)
    (newRefreshResp : Option Bytes) (expiresInResp : Option Nat) :
    OwnerRecord :=
  let expiresIn : Nat :=
    match expiresInResp with
    | some e => if e = 0 then 7200 else e
    | none => 7200
  let newExpiry : Int := now + (expiresIn : Int) * 1000
  let base := { owner with
    ebay_oauth_access_token := encryptTok key ivA newAccess,
    ebay_oauth_token_expiry := some newExpiry }
  match newRefreshResp with
  | some rt =>
    if rt = [] then base
    else { base with ebay_oauth_refresh_token := encryptTok key ivR rt }
  | none => base

/-- Body of the provider response to a refresh call. -/
structure RefreshResponse where
  ok : Bool
  access_token : Option Bytes
  refresh_token : Option Bytes
  expires_in : Option Nat
  deriving DecidableEq

/-- Embedding of `refreshEbayOAuthToken` (`src/unnamed/part_001` lines
145–190).  `resp = none` models the fetch itself raising (network
error); `.error ()` models the raised `Error`; `.ok none` is the early
null return when app credentials or the refresh token are missing (no
fetch is performed in that case); `.ok (some (tok, owner2))` returns the
new access token after persisting. -/
def refreshEbayOAuthToken (key : Nat) (ivA ivR : Bytes) (now : Int)
    (clientId clientSecret : Option String) (refreshToken : Option Bytes)
    (resp : Option RefreshResponse) (owner : OwnerRecord) :
    Except Unit (Option (Bytes × OwnerRecord)) :=
  if truthyS clientId = false then .ok none
  else if truthyS clientSecret = false then .ok none
  else if truthyB refreshToken = false then .ok none
  else
    match resp with
    | none => .error ()
    | some r =>
      if r.ok = false then .error ()
      else
        match r.access_token with
        | none => .error ()
        | some [] => .error ()
        | some newAccess =>
          .ok (some (newAccess,
            refreshPersist key ivA ivR now owner newAccess r.refresh_token
              r.expires_in))

/-! ### The credential-resolution middleware (`loadUserConfig`) -/

structure SessionData where
  userId : Option Nat
  role : Option String
  accountId : Option Nat
  ebayOAuthState : Option String
  deriving DecidableEq

/-- The `req.userConfig` bundle attached by the middleware. -/
structure UserConfig where
  ebayToken : Bytes
  ebayClientId : Bytes
  ebayClientSecret : Bytes
  ebayOAuthToken : Option Bytes
  ebayOAuthConnected : Bool
  ebayOAuthUsername : Option String
  deriving DecidableEq

inductive LoadUserConfigResult where
  | passthrough
  | reject (status : Nat) (error : String) (sessionDestroyed : Bool)
  | proceed (cfg : UserConfig) (refreshCalls : Nat) (owner : OwnerRecord)
  deriving DecidableEq

/-- Number of refresh fetches performed (0 outside `proceed`). -/
def LoadUserConfigResult.calls : LoadUserConfigResult → Nat
  | .proceed _ n _ => n
  | _ => 0

/-- Compute `decrypt(column) ||` empty string, as the middleware computes the
manual-key bundle fields. -/
def decOrEmpty (key : Nat) (o : Option Bytes) : Bytes :=
  (decryptJS key o).getD []

/-- Embedding of `isExpired = !expiry || now > expiry - EXPIRY_BUFFER_MS` from
`loadUserConfig` in `src/unnamed/part_001`. -/
def ebayIsExpired (now : Int) (expiry : Option Int) : Bool :=
  match expiry with
  | none => true
  | some e => decide (now > e - EXPIRY_BUFFER_MS)

/-- Embedding of `row.ebay_oauth_username || null`. -/
def usernameOrNull (o : Option String) : Option String :=
  match o with
  | some u => if u = "" then none else some u
  | none => none

/-- Embedding of `loadUserConfig` from `src/unnamed/part_001` (the
OAuth-aware middleware).  Inputs: the session, the joined query result
(`lookup = some (role, account_id)`, `none` when the user row is gone),
the owner record carrying the credential columns of the join, and the
provider response the token endpoint would give if called.  The outer
`try/catch` (database failure → 500) is outside the model; the inner
`try/catch` around the refresh is explicit below.  `refreshCalls` counts
actual fetches of the token endpoint. -/
def loadUserConfig (key : Nat) (ivA ivR : Bytes) (now : Int)
    (clientId clientSecret : Option String) (session : Option SessionData)
    (lookup : Option (String × Nat)) (owner : OwnerRecord)
    (resp : Option RefreshResponse) : LoadUserConfigResult :=
  match session with
  | none => .passthrough
  | some s =>
    match s.userId with
    | none => .passthrough
    | some _ =>
      match lookup with
      | none => .reject 401 "User not found" true
      | some _ =>
        let baseCfg : UserConfig := {
          ebayToken := decOrEmpty key owner.ebay_token,
          ebayClientId := decOrEmpty key owner.ebay_client_id,
          ebayClientSecret := decOrEmpty key owner.ebay_client_secret,
          ebayOAuthToken := none,
          ebayOAuthConnected := false,
          ebayOAuthUsername := usernameOrNull owner.ebay_oauth_username }
        if truthyB owner.ebay_oauth_access_token = false then
          .proceed baseCfg 0 owner
        else if ebayIsExpired now owner.ebay_oauth_token_expiry = false then
          .proceed { baseCfg with
            ebayOAuthToken := decryptJS key owner.ebay_oauth_access_token,
            ebayOAuthConnected := true } 0 owner
        else if truthyB owner.ebay_oauth_refresh_token = false then
          .proceed baseCfg 0 owner
        else
          match refreshEbayOAuthToken key ivA ivR now clientId clientSecret
              (decryptJS key owner.ebay_oauth_refresh_token) resp owner with
          | .ok none => .proceed baseCfg 0 owner
          | .ok (some (newTok, owner2)) =>
            .proceed { baseCfg with
              ebayOAuthToken := some newTok,
              ebayOAuthConnected := true } 1 owner2
          | .error _ => .proceed baseCfg 1 owner

/-- Embedding of the pre-OAuth `loadUserConfig` from
`src/unnamed/part_000`; its bundle has only the three manual-key fields
(the OAuth fields of `UserConfig` stay at their defaults here). -/
def loadUserConfigV0 (key : Nat) (session : Option SessionData)
    (lookup : Option (String × Nat)) (owner : OwnerRecord) :
    LoadUserConfigResult :=
  match session with
  | none => .passthrough
  | some s =>
    match s.userId with
    | none => .passthrough
    | some _ =>
      match lookup with
      | none => .reject 401 "User not found" true
      | some _ =>
        .proceed { ebayToken := decOrEmpty key owner.ebay_token,
                   ebayClientId := decOrEmpty key owner.ebay_client_id,
                   ebayClientSecret := decOrEmpty key owner.ebay_client_secret,
                   ebayOAuthToken := none,
                   ebayOAuthConnected := false,
                   ebayOAuthUsername := none } 0 owner

/-! ### OAuth callback validation phase (`src/routes/ebay-oauth.js`
lines 40–60) -/

structure CallbackQuery where
  code : Option String
  state : Option String
  error : Option String
  deriving DecidableEq

inductive CallbackPhase1 where
  | declined
  | invalidState
  | proceed (code : String)
  deriving DecidableEq

/-- Embedding of the callback handler up to the token exchange: the
session state slot is deleted first thing (the second component of the
result is the slot afterwards — always `none`), then explicit denial,
then the state check `!savedState || state !== savedState`, then the
missing-code check. -/
def callbackValidate (q : CallbackQuery) (savedState : Option String) :
    CallbackPhase1 × Option String :=
  let outcome : CallbackPhase1 :=
    if q.error = some "access_denied" ∨ q.error = some "consent_declined" then
      .declined
    else
      match savedState with
      | none => .invalidState
      | some sv =>
        if sv = "" then .invalidState
        else if q.state ≠ some sv then .invalidState
        else
          match q.code with
          | none => .declined
          | some c => if c = "" then .declined else .proceed c
  (outcome, none)

/-- The stored and returned state agree (both present, non-blank, equal). -/
def stateOk (q : CallbackQuery) (savedState : Option String) : Prop :=
  match savedState with
  | some sv => sv ≠ "" ∧ q.state = some sv
  | none => False

/-- The provider reported an explicit denial. -/
def isDenial (q : CallbackQuery) : Prop :=
  q.error = some "access_denied" ∨ q.error = some "consent_declined"

/-! ### Configuration write and masked read (`src/routes/config.js`) -/

structure ConfigKeysBody where
  ebay_token : Option Bytes
  ebay_client_id : Option Bytes
  ebay_client_secret : Option Bytes
  deriving DecidableEq

inductive PutKeysOutcome where
  | skipped
  | forbidden
  | updated (owner : OwnerRecord)
  deriving DecidableEq

/-- Embedding of the eBay-keys section of `PUT /api/config`
(`src/routes/config.js` lines 93–120): the block is entered only when
at least one submitted key value is truthy
(`if (ebay_token || ebay_client_id || ebay_client_secret)`); inside, a
non-admin gets 403, and each field present in the body (`!== undefined`)
is written as `val ? encrypt(val) : null`. -/
def putConfigKeys (key : Nat) (ivT ivC ivS : Bytes) (role : String)
    (body : ConfigKeysBody) (owner : OwnerRecord) : PutKeysOutcome :=
  if truthyB body.ebay_token = false ∧ truthyB body.ebay_client_id = false ∧
      truthyB body.ebay_client_secret = false then
    .skipped
  else if role ≠ "admin" then .forbidden
  else
    let o1 := match body.ebay_token with
      | none => owner
      | some v =>
        { owner with ebay_token := if v = [] then none
                                   else encryptTok key ivT v }
    let o2 := match body.ebay_client_id with
      | none => o1
      | some v =>
        { o1 with ebay_client_id := if v = [] then none
                                    else encryptTok key ivC v }
    let o3 := match body.ebay_client_secret with
      | none => o2
      | some v =>
        { o2 with ebay_client_secret := if v = [] then none
                                        else encryptTok key ivS v }
    .updated o3

/-- The owner record after the keys section ran (unchanged unless the
UPDATE executed). -/
def PutKeysOutcome.resultRecord : PutKeysOutcome → OwnerRecord → OwnerRecord
  | .updated r, _ => r
  | _, owner => owner

/-- The masked preview built by `mask` in `GET /api/config`
(`src/routes/config.js` lines 29–34): first six bytes, the three-dot
ellipsis (char 46), and `slice(-4)` — the last four bytes, or the whole
string when shorter than four. -/
def maskPreview (plain : Bytes) : Bytes :=
  plain.take 6 ++ [46, 46, 46] ++ plain.drop (plain.length - 4)

/-- Embedding of `mask`: falsy stored value or failed/blank decryption
reports the field unset with an empty preview. -/
def maskField (key : Nat) (enc : Option Bytes) : Bool × Bytes :=
  match enc with
  | none => (false, [])
  | some e =>
    if e = [] then (false, [])
    else
      match decryptTok key e with
      | none => (false, [])
      | some p => if p = [] then (false, []) else (true, maskPreview p)

/-- The stored-credential invariant of claim C8: a non-null OAuth access
token is always accompanied by a non-null expiry. -/
def oauthInv (owner : OwnerRecord) : Prop :=
  owner.ebay_oauth_access_token ≠ none → owner.ebay_oauth_token_expiry ≠ none

/-! ### Derived crypto facts used by the route-level claims -/

theorem decryptJS_encryptTok (key : Nat) (iv pt : Bytes) (hpt : pt ≠ []) :
    decryptJS key (encryptTok key iv pt) = some pt := by
  obtain ⟨tok, henc, hdec⟩ := encrypt_then_decrypt key iv pt hpt
  rw [henc]
  exact hdec

theorem decOrEmpty_encryptTok (key : Nat) (iv pt : Bytes) (hpt : pt ≠ []) :
    decOrEmpty key (encryptTok key iv pt) = pt := by
  rw [decOrEmpty, decryptJS_encryptTok key iv pt hpt]
  rfl

theorem truthyB_encryptTok (key : Nat) (iv pt : Bytes) (hpt : pt ≠ []) :
    truthyB (encryptTok key iv pt) = true := by
  rw [encryptTok, if_neg hpt]
  cases h : encSeg 0 iv with
  | nil => simp [truthyB]
  | cons a rest => simp [truthyB]

/-! ### Claim C1: callback persist with the refresh token omitted -/

/-- C1 counterexample: the owner record holds a refresh token, the
exchange response of the provider omits one, and the
`ebay_oauth_refresh_token` of the persisted record is no longer the stored value — the claim
that it is left unchanged fails. -/
theorem callback_refresh_overwritten_cex :
    (callbackPersist 1 [1] [2] 0
      ⟨none, none, none, none, some [9, 9], none, none, none⟩
      [5] none none none).ebay_oauth_refresh_token ≠ some [9, 9] := by
  decide

/-- C1 (amended).  On a successful token exchange in which the provider
omits a refresh token, the callback persist overwrites
`ebay_oauth_refresh_token` with null — any previously stored refresh
token is cleared, not preserved; the access token, expiry and identity
label are replaced, and the manual-key columns and template are
untouched. -/
theorem callback_refresh_cleared (key : Nat) (ivA ivR : Bytes) (now : Int)
    (owner : OwnerRecord) (accessToken : Bytes) (expiresInResp : Option Nat)
    (ebayUsername : Option String) :
    (callbackPersist key ivA ivR now owner accessToken none expiresInResp
        ebayUsername).ebay_oauth_refresh_token = none ∧
    (callbackPersist key ivA ivR now owner accessToken none expiresInResp
        ebayUsername).ebay_oauth_access_token = encryptTok key ivA accessToken ∧
    (callbackPersist key ivA ivR now owner accessToken none expiresInResp
        ebayUsername).ebay_oauth_token_expiry ≠ none ∧
    (callbackPersist key ivA ivR now owner accessToken none expiresInResp
        ebayUsername).ebay_oauth_username = ebayUsername ∧
    (callbackPersist key ivA ivR now owner accessToken none expiresInResp
        ebayUsername).ebay_token = owner.ebay_token ∧
    (callbackPersist key ivA ivR now owner accessToken none expiresInResp
        ebayUsername).ebay_client_id = owner.ebay_client_id ∧
    (callbackPersist key ivA ivR now owner accessToken none expiresInResp
        ebayUsername).ebay_client_secret = owner.ebay_client_secret ∧
    (callbackPersist key ivA ivR now owner accessToken none expiresInResp
        ebayUsername).example_template = owner.example_template := by
  refine ⟨rfl, rfl, ?_, rfl, rfl, rfl, rfl, rfl⟩
  simp [callbackPersist]

/-! ### Claim C2: blank-clears semantics of the configuration write -/

/-- C2 counterexample: an admin request submitting only
`ebay_token = ""` (the other key fields absent) skips the keys block
entirely, so the stored field survives — the claim that a blank value
always clears the field fails. -/
theorem config_blank_clear_cex :
    (PutKeysOutcome.resultRecord
      (putConfigKeys 1 [1] [2] [3] "admin"
        ⟨some [], none, none⟩
        ⟨some [9, 9], none, none, none, none, none, none, none⟩)
      ⟨some [9, 9], none, none, none, none, none, none, none⟩).ebay_token
      ≠ none := by
  decide

/-- C2 (amended).  A blank submitted `ebay_token` clears the stored
field (and the masked read then reports it unset) provided the keys
block is entered at all, i.e. at least one of the three submitted
manual-key values in the same request is truthy; a request whose
submitted manual-key values are all blank or absent skips the block and
leaves the fields unchanged. -/
theorem config_blank_clears (key : Nat) (ivT ivC ivS : Bytes)
    (body : ConfigKeysBody) (owner : OwnerRecord)
    (hsome : truthyB body.ebay_client_id = true ∨
      truthyB body.ebay_client_secret = true)
    (hblank : body.ebay_token = some []) :
    ∃ r, putConfigKeys key ivT ivC ivS "admin" body owner = .updated r ∧
      r.ebay_token = none ∧ maskField key r.ebay_token = (false, []) := by
  have hgate : ¬ (truthyB body.ebay_token = false ∧
      truthyB body.ebay_client_id = false ∧
      truthyB body.ebay_client_secret = false) := by
    rcases hsome with h | h <;> simp [h]
  rw [putConfigKeys, if_neg hgate, if_neg (show ¬("admin" ≠ "admin") by simp)]
  refine ⟨_, rfl, ?_, ?_⟩ <;>
    rcases hc : body.ebay_client_id with _ | vC <;>
      rcases hs : body.ebay_client_secret with _ | vS <;>
        simp [hblank, maskField]

/-- C2 witness for the amended statement. -/
theorem config_blank_clears_witness :
    ∃ r, putConfigKeys 1 [1] [2] [3] "admin" ⟨some [], some [1], none⟩
        ⟨some [9, 9], none, none, none, none, none, none, none⟩ =
        .updated r ∧
      r.ebay_token = none ∧ maskField 1 r.ebay_token = (false, []) :=
  config_blank_clears 1 [1] [2] [3] ⟨some [], some [1], none⟩
    ⟨some [9, 9], none, none, none, none, none, none, none⟩
    (Or.inl (by decide)) rfl

/-! ### Claim C9: stale sessions are rejected -/

/-- C9.  When the session carries a userId but the subject row no
longer exists (the join returns no rows), both middleware versions
destroy the session and reject with 401 "User not found"; no credential
bundle is attached.  (The boolean of `reject` records
`req.session.destroy()` having run.) -/
theorem stale_session_rejected (key : Nat) (ivA ivR : Bytes) (now : Int)
    (clientId clientSecret : Option String) (s : SessionData) (uid : Nat)
    (owner : OwnerRecord) (resp : Option RefreshResponse)
    (hs : s.userId = some uid) :
    loadUserConfig key ivA ivR now clientId clientSecret (some s) none owner
        resp = .reject 401 "User not found" true ∧
    loadUserConfigV0 key (some s) none owner =
      .reject 401 "User not found" true := by
  constructor <;> simp [loadUserConfig, loadUserConfigV0, hs]

/-- C9 witness. -/
theorem stale_session_rejected_witness :
    loadUserConfig 1 [1] [2] 0 none none (some ⟨some 7, none, none, none⟩)
        none ⟨none, none, none, none, none, none, none, none⟩ none =
      .reject 401 "User not found" true ∧
    loadUserConfigV0 1 (some ⟨some 7, none, none, none⟩) none
        ⟨none, none, none, none, none, none, none, none⟩ =
      .reject 401 "User not found" true :=
  stale_session_rejected 1 [1] [2] 0 none none ⟨some 7, none, none, none⟩ 7
    ⟨none, none, none, none, none, none, none, none⟩ none rfl

/-! ### Claim C10: the masked preview covers short secrets entirely -/

/-- C10.  For a set manual-key field, the preview is always the first
six bytes, the literal three-dot ellipsis, and the last four bytes of
the decrypted plaintext; consequently, for every plaintext of length at
most ten, every byte of the secret occurs in the preview — masking
hides nothing for short secrets. -/
theorem mask_preview_short (key : Nat) (e p : Bytes)
    (hdec : decryptTok key e = some p) (hp : p ≠ []) :
    maskField key (some e) = (true, maskPreview p) ∧
    maskPreview p = p.take 6 ++ [46, 46, 46] ++ p.drop (p.length - 4) ∧
    (p.length ≤ 10 → ∀ c ∈ p, c ∈ maskPreview p) := by
  have hne : e ≠ [] := by
    intro h
    rw [h] at hdec
    simp [decryptTok] at hdec
  refine ⟨by simp [maskField, hne, hdec, hp], rfl, ?_⟩
  intro hlen c hc
  rw [← List.take_append_drop 6 p] at hc
  rcases List.mem_append.mp hc with h6 | h6
  · simp only [maskPreview, List.mem_append]
    exact Or.inl (Or.inl h6)
  · have hdd : p.drop 6 =
        List.drop (6 - (p.length - 4)) (p.drop (p.length - 4)) := by
      rw [List.drop_drop]
      congr 1
      omega
    rw [hdd] at h6
    simp only [maskPreview, List.mem_append]
    exact Or.inr (List.mem_of_mem_drop h6)

/-- C10 witness at a concrete 3-byte secret. -/
theorem mask_preview_short_witness :
    maskField 1 (some ((encryptTok 1 [1] [5, 6, 7]).getD [])) =
      (true, maskPreview [5, 6, 7]) ∧
    maskPreview [5, 6, 7] =
      [5, 6, 7].take 6 ++ [46, 46, 46] ++
        [5, 6, 7].drop ([5, 6, 7].length - 4) ∧
    ([5, 6, 7].length ≤ 10 → ∀ c ∈ [5, 6, 7], c ∈ maskPreview [5, 6, 7]) :=
  mask_preview_short 1 ((encryptTok 1 [1] [5, 6, 7]).getD []) [5, 6, 7]
    (by decide) (by decide)

/-! ### Claim C3: behaviour exactly at the expiry-buffer boundary -/

/-- C3 counterexample: an owner row whose access token sits exactly at
the buffer boundary (`now = expiry - EXPIRY_BUFFER_MS`), with a valid
refresh token, configured app credentials and a provider that would
answer a refresh successfully — yet `resolve` performs zero refresh
calls, so the claimed "exactly one refresh call" is false. -/
theorem resolve_boundary_cex :
    (loadUserConfig 1 [1] [2] ((1000000 : Int) - EXPIRY_BUFFER_MS)
        (some "id") (some "sec") (some ⟨some 1, some "admin", some 1, none⟩)
        (some ("admin", 1))
        ⟨none, none, none, some [3], some [4], some 1000000, none, none⟩
        (some ⟨true, some [7], none, some 100⟩)).calls ≠ 1 := by
  decide

/-- C3 (amended).  At the exact buffer boundary
(`now = expiry - EXPIRY_BUFFER_MS`) the access token does not yet count
as expired — the check is strict (`now > expiry - buffer`) — so
`resolve` performs no refresh call, leaves the row untouched, and
returns the stored access token (decrypted) marked connected. -/
theorem resolve_boundary (key : Nat) (ivA ivR : Bytes)
    (clientId clientSecret : Option String) (s : SessionData) (uid : Nat)
    (role : String) (acct : Nat) (owner : OwnerRecord) (e : Int)
    (resp : Option RefreshResponse)
    (hs : s.userId = some uid)
    (hacc : truthyB owner.ebay_oauth_access_token = true)
    (hexp : owner.ebay_oauth_token_expiry = some e) :
    ∃ cfg, loadUserConfig key ivA ivR (e - EXPIRY_BUFFER_MS) clientId
        clientSecret (some s) (some (role, acct)) owner resp =
        .proceed cfg 0 owner ∧
      cfg.ebayOAuthToken = decryptJS key owner.ebay_oauth_access_token ∧
      cfg.ebayOAuthConnected = true := by
  refine ⟨{ ebayToken := decOrEmpty key owner.ebay_token,
            ebayClientId := decOrEmpty key owner.ebay_client_id,
            ebayClientSecret := decOrEmpty key owner.ebay_client_secret,
            ebayOAuthToken := decryptJS key owner.ebay_oauth_access_token,
            ebayOAuthConnected := true,
            ebayOAuthUsername := usernameOrNull owner.ebay_oauth_username },
    ?_, rfl, rfl⟩
  simp [loadUserConfig, hs, hacc, hexp, ebayIsExpired]

/-- C3 witness for the amended statement. -/
theorem resolve_boundary_witness :
    ∃ cfg, loadUserConfig 1 [1] [2] ((1000000 : Int) - EXPIRY_BUFFER_MS)
        (some "id") (some "sec") (some ⟨some 1, some "admin", some 1, none⟩)
        (some ("admin", 1))
        ⟨none, none, none, some [3], some [4], some 1000000, none, none⟩
        (some ⟨true, some [7], none, some 100⟩) =
        .proceed cfg 0 ⟨none, none, none, some [3], some [4], some 1000000,
          none, none⟩ ∧
      cfg.ebayOAuthToken = decryptJS 1 (some [3]) ∧
      cfg.ebayOAuthConnected = true :=
  resolve_boundary 1 [1] [2] (some "id") (some "sec")
    ⟨some 1, some "admin", some 1, none⟩ 1 "admin" 1
    ⟨none, none, none, some [3], some [4], some 1000000, none, none⟩ 1000000
    (some ⟨true, some [7], none, some 100⟩) rfl rfl rfl

/-! ### Claim C6: callback state handling (CSRF defence, replay) -/

/-- C6.  The callback deletes the transient state slot of the session
unconditionally (the slot after the handler is always empty); whenever
the provider did not report an explicit denial and the returned state is
absent or does not exactly match a non-blank stored state, the outcome
is `invalid_state`; hence a second callback reusing the already-consumed
state (stored slot now empty) also yields `invalid_state`. -/
theorem callback_state_csrf (q : CallbackQuery) (savedState : Option String) :
    (callbackValidate q savedState).2 = none ∧
    (¬ isDenial q → ¬ stateOk q savedState →
      (callbackValidate q savedState).1 = .invalidState) ∧
    (¬ isDenial q → (callbackValidate q none).1 = .invalidState) := by
  refine ⟨rfl, ?_, ?_⟩
  · intro hden hok
    simp only [callbackValidate]
    rw [if_neg (by simpa [isDenial] using hden)]
    cases savedState with
    | none => rfl
    | some sv =>
      simp only [stateOk] at hok
      by_cases hz : sv = ""
      · simp [hz]
      · have hstate : q.state ≠ some sv := fun h => hok ⟨hz, h⟩
        simp [hz, hstate]
  · intro hden
    simp only [callbackValidate]
    rw [if_neg (by simpa [isDenial] using hden)]

/-- C6 witness: mismatching state, no denial. -/
theorem callback_state_csrf_witness :
    (callbackValidate ⟨none, some "x", none⟩ (some "y")).2 = none ∧
    (callbackValidate ⟨none, some "x", none⟩ (some "y")).1 =
      CallbackPhase1.invalidState ∧
    (callbackValidate ⟨none, some "x", none⟩ none).1 =
      CallbackPhase1.invalidState := by
  obtain ⟨h1, h2, h3⟩ := callback_state_csrf ⟨none, some "x", none⟩ (some "y")
  exact ⟨h1, h2 (by simp [isDenial]) (by simp [stateOk]),
    h3 (by simp [isDenial])⟩

/-! ### Claim C7: refresh failure falls back to manual keys -/

/-- C7.  With an expired access token and a stored refresh token, if the
refresh call fails (network error, non-2xx, or missing/blank access
token in the response), `resolve` does not raise: exactly one refresh
call was made, the bundle reports OAuth disconnected with a null OAuth
token, the owner row is unchanged, and the manual-key triplet decrypted
from the same row is still populated in the bundle. -/
theorem resolve_refresh_failure (key : Nat) (ivA ivR : Bytes) (now : Int)
    (clientId clientSecret : Option String) (s : SessionData)
    (uid acct : Nat) (role : String) (owner : OwnerRecord)
    (resp : Option RefreshResponse) (t1 t2 t3 rt : Bytes)
    (iv1 iv2 iv3 ivr : Bytes)
    (hs : s.userId = some uid)
    (hacc : truthyB owner.ebay_oauth_access_token = true)
    (hexp : ebayIsExpired now owner.ebay_oauth_token_expiry = true)
    (hrt : owner.ebay_oauth_refresh_token = encryptTok key ivr rt)
    (hrtne : rt ≠ [])
    (hcid : truthyS clientId = true) (hcs : truthyS clientSecret = true)
    (hfail : resp = none ∨ ∃ r, resp = some r ∧
      (r.ok = false ∨ r.access_token = none ∨ r.access_token = some []))
    (ht1 : owner.ebay_token = encryptTok key iv1 t1) (ht1ne : t1 ≠ [])
    (ht2 : owner.ebay_client_id = encryptTok key iv2 t2) (ht2ne : t2 ≠ [])
    (ht3 : owner.ebay_client_secret = encryptTok key iv3 t3)
    (ht3ne : t3 ≠ []) :
    ∃ cfg, loadUserConfig key ivA ivR now clientId clientSecret (some s)
        (some (role, acct)) owner resp = .proceed cfg 1 owner ∧
      cfg.ebayOAuthConnected = false ∧ cfg.ebayOAuthToken = none ∧
      cfg.ebayToken = t1 ∧ cfg.ebayClientId = t2 ∧
      cfg.ebayClientSecret = t3 := by
  have hrtb : truthyB owner.ebay_oauth_refresh_token = true := by
    rw [hrt]
    exact truthyB_encryptTok key ivr rt hrtne
  have hdecr : decryptJS key owner.ebay_oauth_refresh_token = some rt := by
    rw [hrt]
    exact decryptJS_encryptTok key ivr rt hrtne
  have hrtb2 : truthyB (some rt) = true := by
    cases rt with
    | nil => exact absurd rfl hrtne
    | cons a l => rfl
  have hrefresh : refreshEbayOAuthToken key ivA ivR now clientId clientSecret
      (decryptJS key owner.ebay_oauth_refresh_token) resp owner =
      .error () := by
    rw [hdecr]
    rcases hfail with rfl | ⟨r, rfl, hbad⟩
    · simp [refreshEbayOAuthToken, hcid, hcs, hrtb2]
    · rcases hbad with hok | hat | hat
      · simp [refreshEbayOAuthToken, hcid, hcs, hrtb2, hok]
      · simp [refreshEbayOAuthToken, hcid, hcs, hrtb2, hat]
      · rcases hok2 : r.ok with _ | _ <;>
          simp [refreshEbayOAuthToken, hcid, hcs, hrtb2, hat, hok2]
  refine ⟨{ ebayToken := decOrEmpty key owner.ebay_token,
            ebayClientId := decOrEmpty key owner.ebay_client_id,
            ebayClientSecret := decOrEmpty key owner.ebay_client_secret,
            ebayOAuthToken := none,
            ebayOAuthConnected := false,
            ebayOAuthUsername := usernameOrNull owner.ebay_oauth_username },
    ?_, rfl, rfl, ?_, ?_, ?_⟩
  · simp [loadUserConfig, hs, hacc, hexp, hrtb, hrefresh]
  · rw [ht1]
    exact decOrEmpty_encryptTok key iv1 t1 ht1ne
  · rw [ht2]
    exact decOrEmpty_encryptTok key iv2 t2 ht2ne
  · rw [ht3]
    exact decOrEmpty_encryptTok key iv3 t3 ht3ne

/-- C7 witness: concrete row, network failure on refresh. -/
theorem resolve_refresh_failure_witness :
    ∃ cfg, loadUserConfig 1 [1] [2] 1000000 (some "id") (some "sec")
        (some ⟨some 1, none, none, none⟩) (some ("admin", 1))
        ⟨encryptTok 1 [3] [7], encryptTok 1 [4] [8], encryptTok 1 [5] [9],
          some [2], encryptTok 1 [6] [10], some 0, none, none⟩ none =
        .proceed cfg 1 ⟨encryptTok 1 [3] [7], encryptTok 1 [4] [8],
          encryptTok 1 [5] [9], some [2], encryptTok 1 [6] [10], some 0,
          none, none⟩ ∧
      cfg.ebayOAuthConnected = false ∧ cfg.ebayOAuthToken = none ∧
      cfg.ebayToken = [7] ∧ cfg.ebayClientId = [8] ∧
      cfg.ebayClientSecret = [9] :=
  resolve_refresh_failure 1 [1] [2] 1000000 (some "id") (some "sec")
    ⟨some 1, none, none, none⟩ 1 1 "admin"
    ⟨encryptTok 1 [3] [7], encryptTok 1 [4] [8], encryptTok 1 [5] [9],
      some [2], encryptTok 1 [6] [10], some 0, none, none⟩
    none [7] [8] [9] [10] [3] [4] [5] [6] rfl rfl (by decide) rfl
    (by decide) rfl rfl (Or.inl rfl) rfl (by decide) rfl (by decide) rfl
    (by decide)

/-! ### Claim C8: the access-token/expiry pairing invariant -/

/-- C8.  Every owner-record mutation of the OAuth columns — the callback
persist, the refresh persist, and disconnect — leaves the record with a
non-null access token only alongside a non-null expiry (the invariant is
in fact re-established unconditionally by each operation). -/
theorem oauth_inv_preserved (key : Nat) (ivA ivR : Bytes) (now : Int)
    (owner : OwnerRecord) (accessToken : Bytes)
    (refreshTokenResp : Option Bytes) (expiresInResp : Option Nat)
    (ebayUsername : Option String) (newAccess : Bytes)
    (newRefreshResp : Option Bytes) :
    oauthInv (callbackPersist key ivA ivR now owner accessToken
      refreshTokenResp expiresInResp ebayUsername) ∧
    oauthInv (refreshPersist key ivA ivR now owner newAccess newRefreshResp
      expiresInResp) ∧
    oauthInv (disconnectUpdate owner) := by
  refine ⟨?_, ?_, ?_⟩
  · intro h
    simp [callbackPersist]
  · intro h
    rcases newRefreshResp with _ | rt
    · simp [refreshPersist]
    · by_cases hrt : rt = [] <;> simp [refreshPersist, hrt]
  · intro h
    simp [disconnectUpdate] at h

/-- C8 witness at concrete inputs. -/
theorem oauth_inv_preserved_witness :
    oauthInv (callbackPersist 1 [1] [2] 0
      ⟨none, none, none, none, none, none, none, none⟩ [5] none none none) ∧
    oauthInv (refreshPersist 1 [1] [2] 0
      ⟨none, none, none, none, none, none, none, none⟩ [5] none none) ∧
    oauthInv (disconnectUpdate
      ⟨none, none, none, none, none, none, none, none⟩) :=
  oauth_inv_preserved 1 [1] [2] 0
    ⟨none, none, none, none, none, none, none, none⟩ [5] none none none
    [5] none

end Pic2List
